import Mathlib

set_option maxHeartbeats 1000000

namespace Customasm

/-!
Shallow embedding of the customasm repository excerpt:
tokenizer (src/syntax/token.rs), the bank-definition pass
(src/asm/defs/bankdef.rs), the assembly pipeline (src/asm2/mod.rs),
and the iterative resolver (src/asm2/resolver, modelled from the spec
since its body is not part of the excerpt).
-/

/-! ## Tokenizer (src/syntax/token.rs) -/

structure Span where
  file : String
  start : Nat
  stop : Nat
deriving Repr, DecidableEq

inductive TokenKind where
  | endTok
  | error
  | whitespace
  | comment
  | lineBreak
  | identifier
  | number
  | string
  | parenOpen
  | parenClose
  | bracketOpen
  | bracketClose
  | braceOpen
  | braceClose
  | dot
  | comma
  | colon
  | arrow
  | hash
  | equal
  | plus
  | minus
  | asterisk
  | slash
  | percent
  | exclamation
  | ampersand
  | verticalBar
  | circumflex
  | tilde
  | ampersandAmpersand
  | verticalBarVerticalBar
  | equalEqual
  | exclamationEqual
  | lessThan
  | lessThanEqual
  | greaterThan
  | greaterThanEqual
deriving Repr, DecidableEq

def TokenKind.needs_excerpt (k : TokenKind) : Bool :=
  k == TokenKind.identifier ||
  k == TokenKind.number ||
  k == TokenKind.string

structure Token where
  span : Span
  kind : TokenKind
  excerpt : Option (List Char)
deriving Repr, DecidableEq

def is_whitespace (c : Char) : Bool :=
  c == ' ' ||
  c == '\t' ||
  c == '\r'

def is_identifier_start (c : Char) : Bool :=
  (decide ('a' ≤ c) && decide (c ≤ 'z')) ||
  (decide ('A' ≤ c) && decide (c ≤ 'Z')) ||
  c == '_'

def is_identifier_mid (c : Char) : Bool :=
  (decide ('a' ≤ c) && decide (c ≤ 'z')) ||
  (decide ('A' ≤ c) && decide (c ≤ 'Z')) ||
  (decide ('0' ≤ c) && decide (c ≤ '9')) ||
  c == '_'

def is_number_start (c : Char) : Bool :=
  decide ('0' ≤ c) && decide (c ≤ '9')

def is_number_mid (c : Char) : Bool :=
  (decide ('a' ≤ c) && decide (c ≤ 'z')) ||
  (decide ('A' ≤ c) && decide (c ≤ 'Z')) ||
  (decide ('0' ≤ c) && decide (c ≤ '9')) ||
  c == '_' ||
  c == '.' ||
  c == '\''

/-- Result type of a `check_for_*` helper: `Except.error ()` models the
out-of-bounds panic of the unguarded `src[0]` slice index in the source;
`Except.ok none` means "this token kind does not start here";
`Except.ok (some (kind, length))` is a recognized token. -/
abbrev CheckResult := Except Unit (Option (TokenKind × Nat))

def check_for_whitespace (src : List Char) : CheckResult :=
  match src with
  | [] => Except.error ()
  | c :: _ =>
    if !is_whitespace c then Except.ok none
    else Except.ok (some (TokenKind.whitespace, (src.takeWhile is_whitespace).length))

def check_for_comment (src : List Char) : CheckResult :=
  match src with
  | [] => Except.error ()
  | c :: _ =>
    if c != ';' then Except.ok none
    else Except.ok (some (TokenKind.comment, (src.takeWhile (fun x => x != '\n')).length))

def check_for_identifier (src : List Char) : CheckResult :=
  match src with
  | [] => Except.error ()
  | c :: _ =>
    if !is_identifier_start c then Except.ok none
    else Except.ok (some (TokenKind.identifier, (src.takeWhile is_identifier_mid).length))

def check_for_number (src : List Char) : CheckResult :=
  match src with
  | [] => Except.error ()
  | c :: _ =>
    if !is_number_start c then Except.ok none
    else Except.ok (some (TokenKind.number, (src.takeWhile is_number_mid).length))

def string_scan_len (rest : List Char) : Nat :=
  1 + (rest.takeWhile (fun x => x != '\"')).length

def check_for_string (src : List Char) : CheckResult :=
  match src with
  | [] => Except.error ()
  | c :: rest =>
    if c != '\"' then Except.ok none
    else
      if string_scan_len rest ≥ src.length then Except.ok none
      else
        match src.get? (string_scan_len rest) with
        | none => Except.error ()
        | some q =>
          if q != '\"' then Except.ok none
          else Except.ok (some (TokenKind.string, string_scan_len rest))

def OPERATORS : List (List Char × TokenKind) :=
  [ (['\n'], TokenKind.lineBreak),
    (['('], TokenKind.parenOpen),
    ([')'], TokenKind.parenClose),
    (['['], TokenKind.bracketOpen),
    ([']'], TokenKind.bracketClose),
    (['{'], TokenKind.braceOpen),
    (['}'], TokenKind.braceClose),
    (['.'], TokenKind.dot),
    ([','], TokenKind.comma),
    ([':'], TokenKind.colon),
    (['-', '>'], TokenKind.arrow),
    (['#'], TokenKind.hash),
    (['+'], TokenKind.plus),
    (['-'], TokenKind.minus),
    (['*'], TokenKind.asterisk),
    (['/'], TokenKind.slash),
    (['%'], TokenKind.percent),
    (['^'], TokenKind.circumflex),
    (['~'], TokenKind.tilde),
    (['&', '&'], TokenKind.ampersandAmpersand),
    (['&'], TokenKind.ampersand),
    (['|', '|'], TokenKind.verticalBarVerticalBar),
    (['|'], TokenKind.verticalBar),
    (['=', '='], TokenKind.equalEqual),
    (['='], TokenKind.equal),
    (['!', '='], TokenKind.exclamationEqual),
    (['!'], TokenKind.exclamation),
    (['<', '='], TokenKind.lessThanEqual),
    (['<'], TokenKind.lessThan),
    (['>', '='], TokenKind.greaterThanEqual),
    (['>'], TokenKind.greaterThan) ]

/-- The per-operator loop of `check_for_fixed`: `i >= src.len() || src[i] != c`
fails the operator, so an operator matches exactly when it is a prefix. -/
def op_matches (src : List Char) : List Char → Bool
  | [] => true
  | c :: ops =>
    match src with
    | [] => false
    | s :: srcs => s == c && op_matches srcs ops

def check_for_fixed (src : List Char) : CheckResult :=
  match OPERATORS.find? (fun op => op_matches src op.1) with
  | some op => Except.ok (some (op.2, op.1.length))
  | none => Except.ok none

/-- The `unwrap_or_else` chain inside `tokenize`. -/
def check_or_else (a : CheckResult) (b : Unit → Except Unit (TokenKind × Nat)) :
    Except Unit (TokenKind × Nat) :=
  match a with
  | Except.error e => Except.error e
  | Except.ok (some r) => Except.ok r
  | Except.ok none => b ()

/-- Decides the next token's kind and length at the head of `src`,
falling back to a length-1 `Error` token. -/
def next_token (src : List Char) : Except Unit (TokenKind × Nat) :=
  check_or_else (check_for_whitespace src) (fun _ =>
  check_or_else (check_for_comment src) (fun _ =>
  check_or_else (check_for_identifier src) (fun _ =>
  check_or_else (check_for_number src) (fun _ =>
  check_or_else (check_for_string src) (fun _ =>
  check_or_else (check_for_fixed src) (fun _ =>
  Except.ok (TokenKind.error, 1)))))))

theorem is_identifier_start_mid {c : Char} (h : is_identifier_start c = true) :
    is_identifier_mid c = true := by
  simp only [is_identifier_start, Bool.or_eq_true, Bool.and_eq_true, decide_eq_true_eq] at h
  simp only [is_identifier_mid, Bool.or_eq_true, Bool.and_eq_true, decide_eq_true_eq]
  tauto

theorem is_number_start_mid {c : Char} (h : is_number_start c = true) :
    is_number_mid c = true := by
  simp only [is_number_start, Bool.and_eq_true, decide_eq_true_eq] at h
  simp only [is_number_mid, Bool.or_eq_true, Bool.and_eq_true, decide_eq_true_eq]
  tauto

theorem op_matches_length {src : List Char} :
    ∀ {ops : List Char}, op_matches src ops = true → ops.length ≤ src.length := by
  induction src with
  | nil =>
    intro ops h
    cases ops with
    | nil => simp
    | cons c cs => simp [op_matches] at h
  | cons s srcs ih =>
    intro ops h
    cases ops with
    | nil => simp
    | cons c cs =>
      simp only [op_matches, Bool.and_eq_true] at h
      simpa using Nat.succ_le_succ (ih h.2)

theorem takeWhile_length_le (p : Char → Bool) (l : List Char) :
    (l.takeWhile p).length ≤ l.length :=
  List.Sublist.length_le (List.takeWhile_sublist _)

/-- Shape of a successful `check_for_whitespace`: never the error branch on a
nonempty slice, and any recognized token has length between 1 and the slice length. -/
theorem check_for_whitespace_spec (c : Char) (rest : List Char) :
    check_for_whitespace (c :: rest) = Except.ok none ∨
    (∃ n, check_for_whitespace (c :: rest) = Except.ok (some (TokenKind.whitespace, n)) ∧
      1 ≤ n ∧ n ≤ (c :: rest).length) := by
  simp only [check_for_whitespace]
  by_cases hc : is_whitespace c
  · right
    refine ⟨_, by rw [if_neg (by simp [hc])], ?_, takeWhile_length_le _ _⟩
    rw [List.takeWhile_cons_of_pos hc]
    simp
  · left
    rw [if_pos (by simp [hc])]

theorem check_for_comment_spec (c : Char) (rest : List Char) :
    check_for_comment (c :: rest) = Except.ok none ∨
    (∃ n, check_for_comment (c :: rest) = Except.ok (some (TokenKind.comment, n)) ∧
      1 ≤ n ∧ n ≤ (c :: rest).length) := by
  simp only [check_for_comment]
  by_cases hc : c = ';'
  · right
    refine ⟨_, by rw [if_neg (by simp [hc])], ?_, takeWhile_length_le _ _⟩
    rw [List.takeWhile_cons_of_pos (by simp [hc])]
    simp
  · left
    rw [if_pos (by simp [hc])]

theorem check_for_identifier_spec (c : Char) (rest : List Char) :
    check_for_identifier (c :: rest) = Except.ok none ∨
    (∃ n, check_for_identifier (c :: rest) = Except.ok (some (TokenKind.identifier, n)) ∧
      1 ≤ n ∧ n ≤ (c :: rest).length) := by
  simp only [check_for_identifier]
  by_cases hc : is_identifier_start c
  · right
    refine ⟨_, by rw [if_neg (by simp [hc])], ?_, takeWhile_length_le _ _⟩
    rw [List.takeWhile_cons_of_pos (is_identifier_start_mid hc)]
    simp
  · left
    rw [if_pos (by simp [hc])]

theorem check_for_number_spec (c : Char) (rest : List Char) :
    check_for_number (c :: rest) = Except.ok none ∨
    (∃ n, check_for_number (c :: rest) = Except.ok (some (TokenKind.number, n)) ∧
      1 ≤ n ∧ n ≤ (c :: rest).length) := by
  simp only [check_for_number]
  by_cases hc : is_number_start c
  · right
    refine ⟨_, by rw [if_neg (by simp [hc])], ?_, takeWhile_length_le _ _⟩
    rw [List.takeWhile_cons_of_pos (is_number_start_mid hc)]
    simp
  · left
    rw [if_pos (by simp [hc])]

theorem check_for_string_spec (c : Char) (rest : List Char) :
    check_for_string (c :: rest) = Except.ok none ∨
    (∃ n, check_for_string (c :: rest) = Except.ok (some (TokenKind.string, n)) ∧
      1 ≤ n ∧ n ≤ (c :: rest).length) := by
  simp only [check_for_string]
  by_cases hc : (c != '\"') = true
  · left
    rw [if_pos hc]
  · rw [if_neg hc]
    by_cases hlen : string_scan_len rest ≥ (c :: rest).length
    · left
      rw [if_pos hlen]
    · rw [if_neg hlen]
      have hlt : string_scan_len rest < (c :: rest).length := by omega
      have hq : (c :: rest).get? (string_scan_len rest) =
          some ((c :: rest).get ⟨string_scan_len rest, hlt⟩) := by
        rw [List.get?_eq_getElem?]
        exact List.getElem?_eq_getElem hlt
      rw [hq]
      by_cases hq2 : (((c :: rest).get ⟨string_scan_len rest, hlt⟩) != '\"') = true
      · left
        simp only [List.get_eq_getElem] at hq2
        simp
        simpa using hq2
      · right
        refine ⟨string_scan_len rest, ?_, ?_, by omega⟩
        · simp only [List.get_eq_getElem] at hq2
          simp
          simpa using hq2
        · simp [string_scan_len]

theorem check_for_fixed_spec (src : List Char) :
    check_for_fixed src = Except.ok none ∨
    (∃ k n, check_for_fixed src = Except.ok (some (k, n)) ∧
      1 ≤ n ∧ n ≤ src.length) := by
  simp only [check_for_fixed]
  cases hf : OPERATORS.find? (fun op => op_matches src op.1) with
  | none => left; rfl
  | some op =>
    right
    have hm := List.find?_some hf
    refine ⟨op.2, op.1.length, rfl, ?_, op_matches_length (by simpa using hm)⟩
    have hall : ∀ p ∈ OPERATORS, 1 ≤ p.1.length := by decide
    exact hall op (List.mem_of_find?_eq_some hf)

/-- A successful `next_token` at a nonempty slice: it exists, its length is
positive and does not exceed the slice length. -/
theorem next_token_spec (c : Char) (rest : List Char) :
    ∃ k n, next_token (c :: rest) = Except.ok (k, n) ∧ 1 ≤ n ∧ n ≤ (c :: rest).length := by
  unfold next_token
  rcases check_for_whitespace_spec c rest with hw | ⟨n, hw, h1, h2⟩
  · rw [hw]
    simp only [check_or_else]
    rcases check_for_comment_spec c rest with hc | ⟨n, hc, h1, h2⟩
    · rw [hc]
      simp only [check_or_else]
      rcases check_for_identifier_spec c rest with hi | ⟨n, hi, h1, h2⟩
      · rw [hi]
        simp only [check_or_else]
        rcases check_for_number_spec c rest with hn | ⟨n, hn, h1, h2⟩
        · rw [hn]
          simp only [check_or_else]
          rcases check_for_string_spec c rest with hs | ⟨n, hs, h1, h2⟩
          · rw [hs]
            simp only [check_or_else]
            rcases check_for_fixed_spec (c :: rest) with hf | ⟨k, n, hf, h1, h2⟩
            · rw [hf]
              simp only [check_or_else]
              exact ⟨TokenKind.error, 1, rfl, le_refl 1, by simp⟩
            · exact ⟨k, n, by rw [hf]; try rfl, h1, h2⟩
          · exact ⟨_, n, by rw [hs]; try rfl, h1, h2⟩
        · exact ⟨_, n, by rw [hn]; try rfl, h1, h2⟩
      · exact ⟨_, n, by rw [hi]; try rfl, h1, h2⟩
    · exact ⟨_, n, by rw [hc]; try rfl, h1, h2⟩
  · exact ⟨_, n, by rw [hw]; try rfl, h1, h2⟩

/-- Helpers only hit their out-of-bounds branch on the empty slice. -/
theorem helpers_ok_of_ne_nil {src : List Char} (h : src ≠ []) (e : Unit) :
    check_for_whitespace src ≠ Except.error e ∧
    check_for_comment src ≠ Except.error e ∧
    check_for_identifier src ≠ Except.error e ∧
    check_for_number src ≠ Except.error e ∧
    check_for_string src ≠ Except.error e ∧
    check_for_fixed src ≠ Except.error e := by
  cases src with
  | nil => exact absurd rfl h
  | cons c rest =>
    refine ⟨?_, ?_, ?_, ?_, ?_, ?_⟩
    · rcases check_for_whitespace_spec c rest with hw | ⟨n, hw, -, -⟩ <;> simp [hw]
    · rcases check_for_comment_spec c rest with hc | ⟨n, hc, -, -⟩ <;> simp [hc]
    · rcases check_for_identifier_spec c rest with hi | ⟨n, hi, -, -⟩ <;> simp [hi]
    · rcases check_for_number_spec c rest with hn | ⟨n, hn, -, -⟩ <;> simp [hn]
    · rcases check_for_string_spec c rest with hs | ⟨n, hs, -, -⟩ <;> simp [hs]
    · rcases check_for_fixed_spec (c :: rest) with hf | ⟨k, n, hf, -, -⟩ <;> simp [hf]

/-- Positivity of the decided token length, in the form needed for the
termination argument of `tokenize_from`. -/
theorem next_token_len_pos {src : List Char} {k : TokenKind} {n : Nat}
    (hne : src ≠ []) (h : next_token src = Except.ok (k, n)) : 1 ≤ n := by
  cases src with
  | nil => exact absurd rfl hne
  | cons c rest =>
    obtain ⟨k', n', heq, h1, -⟩ := next_token_spec c rest
    rw [h] at heq
    cases heq
    exact h1

/-- The `while index < src.len()` loop of `tokenize`, plus the final end token.
`index` is the loop variable; the recursion terminates because every decided
token has positive length. -/
def tokenize_from (filename : String) (src : List Char) (index : Nat) :
    Except Unit (List Token) :=
  if h : index < src.length then
    match hnt : next_token (src.drop index) with
    | Except.error _ => Except.error ()
    | Except.ok (kind, length) =>
      match tokenize_from filename src (index + length) with
      | Except.error e => Except.error e
      | Except.ok rest =>
        Except.ok
          ({ span := ⟨filename, index, index + length⟩,
             kind := kind,
             excerpt :=
               if kind.needs_excerpt then some ((src.drop index).take length)
               else none } :: rest)
  else
    Except.ok [{ span := ⟨filename, index, index⟩, kind := TokenKind.endTok, excerpt := none }]
termination_by src.length - index
decreasing_by
  have hne : src.drop index ≠ [] := by
    intro hnil
    have := congrArg List.length hnil
    simp at this
    omega
  have hpos := next_token_len_pos hne hnt
  omega

def tokenize (src_filename : String) (src : List Char) : Except Unit (List Token) :=
  tokenize_from src_filename src 0

/-- `spans_tile len pos ts`: the spans of `ts` are contiguous starting at `pos`,
every token except the last has length at least 1, and the last token is a
zero-width `End` token sitting exactly at `len`. -/
def spans_tile (src_len : Nat) : Nat → List Token → Prop
  | _, [] => False
  | pos, [t] =>
    t.span.start = pos ∧ t.span.stop = pos ∧ pos = src_len ∧ t.kind = TokenKind.endTok
  | pos, t :: u :: rest =>
    t.span.start = pos ∧ pos + 1 ≤ t.span.stop ∧ spans_tile src_len t.span.stop (u :: rest)

theorem tokenize_from_tiles (filename : String) (src : List Char) :
    ∀ fuel index, src.length - index ≤ fuel → index ≤ src.length →
    ∃ ts, tokenize_from filename src index = Except.ok ts ∧
      spans_tile src.length index ts := by
  intro fuel
  induction fuel with
  | zero =>
    intro index hf hle
    have hidx : ¬ index < src.length := by omega
    refine ⟨[{ span := ⟨filename, index, index⟩, kind := TokenKind.endTok, excerpt := none }],
      ?_, ?_⟩
    · rw [tokenize_from, dif_neg hidx]
    · exact ⟨rfl, rfl, by omega, rfl⟩
  | succ fuel ih =>
    intro index hf hle
    by_cases hidx : index < src.length
    · have hdroplen : (src.drop index).length = src.length - index := List.length_drop _ _
      have hne : src.drop index ≠ [] := by
        intro hnil
        have := congrArg List.length hnil
        simp at this
        omega
      obtain ⟨c, rest0, hsplit⟩ := List.exists_cons_of_ne_nil hne
      obtain ⟨k, n, hnt, h1, h2⟩ := next_token_spec c rest0
      rw [← hsplit] at hnt h2
      rw [hdroplen] at h2
      have hle2 : index + n ≤ src.length := by omega
      obtain ⟨ts, hts, htile⟩ := ih (index + n) (by omega) hle2
      refine ⟨{ span := ⟨filename, index, index + n⟩,
                kind := k,
                excerpt :=
                  if k.needs_excerpt then some ((src.drop index).take n) else none } :: ts,
        ?_, ?_⟩
      · rw [tokenize_from, dif_pos hidx]
        split
        · rename_i heq
          rw [hnt] at heq
          cases heq
        · rename_i kind len heq
          rw [hnt] at heq
          cases heq
          rw [hts]
      · cases ts with
        | nil => exact absurd htile (by simp [spans_tile])
        | cons u rest =>
          exact ⟨rfl, by simp; omega, htile⟩
    · have : src.length - index = 0 := by omega
      refine ⟨[{ span := ⟨filename, index, index⟩, kind := TokenKind.endTok, excerpt := none }],
        ?_, ?_⟩
      · rw [tokenize_from, dif_neg hidx]
      · exact ⟨rfl, rfl, by omega, rfl⟩

/-- C9: for every input character sequence, `tokenize` terminates and returns a
token list whose spans are contiguous and exactly tile the positions `0` through
`src.length` — every token except the last has length at least 1 and starts where
the previous one ended — and the final token is an `End` token with a zero-width
span at `src.length`. -/
theorem tokenize_spans_tile (filename : String) (src : List Char) :
    ∃ ts, tokenize filename src = Except.ok ts ∧ spans_tile src.length 0 ts :=
  tokenize_from_tiles filename src src.length 0 (by omega) (by omega)

/-- C10: each `check_for_*` helper reads `src[0]` without a bounds guard, but on a
nonempty slice no indexing in any helper is out of bounds (the `Except.error`
branch that models the panic is never taken), and `tokenize` only invokes the
helpers while `index < src.length`, so the whole tokenizer never reaches an
out-of-bounds access. -/
theorem check_helpers_no_oob :
    (∀ src : List Char, src ≠ [] →
      check_for_whitespace src ≠ Except.error () ∧
      check_for_comment src ≠ Except.error () ∧
      check_for_identifier src ≠ Except.error () ∧
      check_for_number src ≠ Except.error () ∧
      check_for_string src ≠ Except.error () ∧
      check_for_fixed src ≠ Except.error ()) ∧
    (∀ (filename : String) (src : List Char), tokenize filename src ≠ Except.error ()) := by
  constructor
  · intro src h
    exact helpers_ok_of_ne_nil h ()
  · intro filename src
    obtain ⟨ts, hts, -⟩ :=
      tokenize_from_tiles filename src src.length 0 (by omega) (by omega)
    rw [tokenize, hts]
    simp

/-- Witness for C10 at the concrete slice `['a']`. -/
theorem check_helpers_no_oob_witness :
    (['a'] : List Char) ≠ [] ∧ check_for_whitespace ['a'] ≠ Except.error () :=
  ⟨by decide, (check_helpers_no_oob.1 ['a'] (by decide)).1⟩

/-! ## Bank definition pass (src/asm/defs/bankdef.rs) -/

/-- `usize` is 64 bits wide on the reference target; the unchecked `usize`
multiplication in the source wraps modulo this value in release builds. -/
def USIZE_LIMIT : Nat := 2 ^ 64

/-- Modelled from the spec: the external expression evaluator capability
("a function ... producing either a resolved numeric/bit value or a typed
failure"). The expression module is outside the excerpt, so an expression is
represented by its evaluation outcome under the `dummy_eval_query` provider
used at definition time (`none` = genuine evaluation failure) together with
its source span. -/
structure Expr where
  value : Option Int
  span : Span
deriving Repr, DecidableEq

/-- Diagnostics sink: accumulated error reports keyed by message and span. -/
structure Report where
  errors : List (String × Span)
deriving Repr, DecidableEq

def Report.error_span (r : Report) (msg : String) (span : Span) : Report :=
  { errors := r.errors ++ [(msg, span)] }

/-- `expr.eval_usize(report, provider)`: evaluation must produce a value that
fits `usize`; on failure an error is reported and `Err` is returned. -/
def eval_usize (r : Report) (e : Expr) : Except Unit Nat × Report :=
  match e.value with
  | none => (Except.error (), r.error_span "evaluation error" e.span)
  | some i =>
    if 0 ≤ i ∧ i < (USIZE_LIMIT : Int) then (Except.ok i.toNat, r)
    else (Except.error (), r.error_span "value out of usize range" e.span)

/-- `expr.eval_bigint(report, provider)`: arbitrary-precision result. -/
def eval_bigint (r : Report) (e : Expr) : Except Unit Int × Report :=
  match e.value with
  | none => (Except.error (), r.error_span "evaluation error" e.span)
  | some i => (Except.ok i, r)

/-- `BigInt::checked_sub`: exact arbitrary-precision subtraction. -/
def checked_sub (r : Report) (_span : Span) (a b : Int) : Except Unit Int × Report :=
  (Except.ok (a - b), r)

/-- `BigInt::checked_into::<usize>`: fails when the value is negative or does
not fit `usize`, reporting at the given span. -/
def checked_into_usize (r : Report) (span : Span) (i : Int) : Except Unit Nat × Report :=
  if 0 ≤ i ∧ i < (USIZE_LIMIT : Int) then (Except.ok i.toNat, r)
  else (Except.error (), r.error_span "value not convertible to usize" span)

structure AstDirectiveBankdef where
  item_ref : Nat
  addr_unit : Option Expr
  label_align : Option Expr
  addr_start : Option Expr
  addr_size : Option Expr
  addr_end : Option Expr
  output_offset : Option Expr
  fill : Bool
  header_span : Span
deriving Repr, DecidableEq

inductive AstAny where
  | directiveBankdef (node : AstDirectiveBankdef)
  | other
deriving Repr, DecidableEq

structure Bankdef where
  item_ref : Nat
  addr_unit : Nat
  label_align : Option Nat
  addr_start : Int
  size : Option Nat
  output_offset : Option Nat
  fill : Bool
deriving Repr, DecidableEq

/-- The bank slots of the definition store, addressed by item reference. -/
def BankStore : Type := Nat → Option Bankdef

/-- `defs.bankdefs.define(item_ref, bankdef)`: store a definition under its
item reference, replacing any previous definition with the same reference. -/
def store_define (s : BankStore) (k : Nat) (b : Bankdef) : BankStore :=
  fun k' => if k' = k then some b else s k'

def store_lookup (s : BankStore) (k : Nat) : Option Bankdef := s k

def store_empty : BankStore := fun _ => none

structure DefsState where
  report : Report
  bankdefs : BankStore

/-- `match &node.addr_unit { None => 8, Some(expr) => expr.eval_usize(...)? }`
and the analogous optional-field evaluations. -/
def eval_opt_usize_default (r : Report) (d : Nat) (oe : Option Expr) :
    Except Unit Nat × Report :=
  match oe with
  | none => (Except.ok d, r)
  | some e => eval_usize r e

def eval_opt_usize (r : Report) (oe : Option Expr) : Except Unit (Option Nat) × Report :=
  match oe with
  | none => (Except.ok none, r)
  | some e =>
    match eval_usize r e with
    | (Except.ok v, r') => (Except.ok (some v), r')
    | (Except.error u, r') => (Except.error u, r')

def eval_opt_bigint_default (r : Report) (d : Int) (oe : Option Expr) :
    Except Unit Int × Report :=
  match oe with
  | none => (Except.ok d, r)
  | some e => eval_bigint r e

def eval_opt_bigint (r : Report) (oe : Option Expr) : Except Unit (Option Int) × Report :=
  match oe with
  | none => (Except.ok none, r)
  | some e =>
    match eval_bigint r e with
    | (Except.ok v, r') => (Except.ok (some v), r')
    | (Except.error u, r') => (Except.error u, r')

/-- The `match (addr_size, addr_end)` block of `define`: at most one of `size`
and `addr_end` may be given; `addr_end` is converted via checked subtraction of
`addr_start` and checked conversion to `usize`. -/
def resolve_addr_size (r : Report) (node : AstDirectiveBankdef) (addr_start : Int)
    (addr_size : Option Nat) (addr_end : Option Int) :
    Except Unit (Option Nat) × Report :=
  match addr_size, addr_end with
  | none, none => (Except.ok none, r)
  | some s, none => (Except.ok (some s), r)
  | none, some e =>
    -- `node.addr_end.as_ref().unwrap().span()`; the fallback is unreachable
    -- because `addr_end` was evaluated from `node.addr_end`.
    let endSpan :=
      match node.addr_end with
      | some ex => ex.span
      | none => node.header_span
    match checked_sub r endSpan e addr_start with
    | (Except.error u, r') => (Except.error u, r')
    | (Except.ok d, r') =>
      match checked_into_usize r' endSpan d with
      | (Except.error u, r'') => (Except.error u, r'')
      | (Except.ok v, r'') => (Except.ok (some v), r'')
  | some _, some _ =>
    (Except.error (), r.error_span "both `addr_end` and `size` defined" node.header_span)

/-- The body of the `for any_node in &ast.nodes` loop for one
`DirectiveBankdef` node. Returns the updated state and whether processing
may continue (`false` mirrors `return Err(())`). -/
def define_bankdef (st : DefsState) (node : AstDirectiveBankdef) : DefsState × Bool :=
  match eval_opt_usize_default st.report 8 node.addr_unit with
  | (Except.error _, r1) => ({ st with report := r1 }, false)
  | (Except.ok addr_unit, r1) =>
  match eval_opt_usize r1 node.label_align with
  | (Except.error _, r2) => ({ st with report := r2 }, false)
  | (Except.ok label_align, r2) =>
  match eval_opt_bigint_default r2 0 node.addr_start with
  | (Except.error _, r3) => ({ st with report := r3 }, false)
  | (Except.ok addr_start, r3) =>
  match eval_opt_usize r3 node.addr_size with
  | (Except.error _, r4) => ({ st with report := r4 }, false)
  | (Except.ok addr_size0, r4) =>
  match eval_opt_bigint r4 node.addr_end with
  | (Except.error _, r5) => ({ st with report := r5 }, false)
  | (Except.ok addr_end, r5) =>
  match resolve_addr_size r5 node addr_start addr_size0 addr_end with
  | (Except.error _, r6) => ({ st with report := r6 }, false)
  | (Except.ok addr_size, r6) =>
  -- `// FIXME: Multiplication can overflow` in the source: the `usize`
  -- product wraps modulo 2^64.
  let size := addr_size.map (fun s => s * addr_unit % USIZE_LIMIT)
  match eval_opt_usize r6 node.output_offset with
  | (Except.error _, r7) => ({ st with report := r7 }, false)
  | (Except.ok output_offset, r7) =>
    ({ report := r7,
       bankdefs := store_define st.bankdefs node.item_ref
         { item_ref := node.item_ref,
           addr_unit := addr_unit,
           label_align := label_align,
           addr_start := addr_start,
           size := size,
           output_offset := output_offset,
           fill := node.fill } }, true)

/-- The implicit default bank installed before any AST node is processed. -/
def initial_bankdef : Bankdef :=
  { item_ref := 0,
    addr_unit := 8,
    label_align := none,
    addr_start := 0,
    size := none,
    output_offset := some 0,
    fill := false }

def define_nodes (st : DefsState) : List AstAny → DefsState × Bool
  | [] => (st, true)
  | AstAny.other :: rest => define_nodes st rest
  | AstAny.directiveBankdef n :: rest =>
    match define_bankdef st n with
    | (st', true) => define_nodes st' rest
    | (st', false) => (st', false)

/-- `asm::defs::bankdef::define`: installs the implicit initial bank, then
processes the AST nodes in order, stopping at the first failure. -/
def bankdef_define (report : Report) (bankdefs : BankStore)
    (nodes : List AstAny) : DefsState × Bool :=
  define_nodes { report := report, bankdefs := store_define bankdefs 0 initial_bankdef } nodes

theorem store_lookup_define_self (s : BankStore) (k : Nat) (b : Bankdef) :
    store_lookup (store_define s k b) k = some b := by
  simp [store_lookup, store_define]

theorem store_lookup_define_ne (s : BankStore) (k k' : Nat) (b : Bankdef)
    (h : k' ≠ k) : store_lookup (store_define s k b) k' = store_lookup s k' := by
  simp [store_lookup, store_define, h]

/-- `define_bankdef` either leaves the bank store untouched (an error path) or
stores exactly one bank under the node's own item reference. -/
theorem define_bankdef_bankdefs_cases (st : DefsState) (node : AstDirectiveBankdef) :
    (define_bankdef st node).1.bankdefs = st.bankdefs ∨
    ∃ b, (define_bankdef st node).1.bankdefs = store_define st.bankdefs node.item_ref b := by
  unfold define_bankdef
  repeat' split
  all_goals first
    | (left; rfl)
    | (right; exact ⟨_, rfl⟩)

theorem define_nodes_preserves_zero (nodes : List AstAny) :
    ∀ st : DefsState, (∀ n, AstAny.directiveBankdef n ∈ nodes → n.item_ref ≠ 0) →
    store_lookup (define_nodes st nodes).1.bankdefs 0 = store_lookup st.bankdefs 0 := by
  induction nodes with
  | nil => intro st h; rfl
  | cons nd rest ih =>
    intro st h
    cases nd with
    | other =>
      simp only [define_nodes]
      exact ih st (fun n hn => h n (List.mem_cons_of_mem _ hn))
    | directiveBankdef n =>
      have href : n.item_ref ≠ 0 := h n (List.mem_cons_self _ _)
      have hkeep : store_lookup (define_bankdef st n).1.bankdefs 0 = store_lookup st.bankdefs 0 := by
        rcases define_bankdef_bankdefs_cases st n with heq | ⟨b, heq⟩
        · rw [heq]
        · rw [heq, store_lookup_define_ne _ _ _ _ (by omega)]
      simp only [define_nodes]
      split
      · rename_i st' heq
        have := ih st' (fun m hm => h m (List.mem_cons_of_mem _ hm))
        rw [this]
        have : (define_bankdef st n).1 = st' := by rw [heq]
        rw [← this]
        exact hkeep
      · rename_i st' heq
        have : (define_bankdef st n).1 = st' := by rw [heq]
        rw [← this]
        exact hkeep

/-- C3: on every run of the bank-definition pass, before any AST node is
processed an implicit default bank is installed in the definition store with
`addr_unit = 8`, `addr_start = 0`, `output_offset = 0` and no size bound, and
(for the fresh, nonzero item references handed out for explicit bankdef
directives) this bank is still present when the pass finishes, whether or not
the pass succeeds. -/
theorem initial_bank_always_defined (report : Report) (bankdefs : BankStore)
    (nodes : List AstAny)
    (h : ∀ n, AstAny.directiveBankdef n ∈ nodes → n.item_ref ≠ 0) :
    bankdef_define report bankdefs nodes =
      define_nodes { report := report, bankdefs := store_define bankdefs 0 initial_bankdef }
        nodes
    ∧ store_lookup (store_define bankdefs 0 initial_bankdef) 0 = some initial_bankdef
    ∧ initial_bankdef.addr_unit = 8
    ∧ initial_bankdef.addr_start = 0
    ∧ initial_bankdef.output_offset = some 0
    ∧ initial_bankdef.size = none
    ∧ store_lookup (bankdef_define report bankdefs nodes).1.bankdefs 0 = some initial_bankdef := by
  refine ⟨rfl, store_lookup_define_self _ _ _, rfl, rfl, rfl, rfl, ?_⟩
  rw [bankdef_define, define_nodes_preserves_zero nodes _ h]
  exact store_lookup_define_self _ _ _

/-- A one-node AST used as the concrete input of the C3 witness. -/
def c3_node : AstDirectiveBankdef :=
  { item_ref := 1, addr_unit := none, label_align := none, addr_start := none,
    addr_size := none, addr_end := none, output_offset := none, fill := false,
    header_span := ⟨"main.asm", 0, 1⟩ }

def c3_nodes : List AstAny := [AstAny.directiveBankdef c3_node, AstAny.other]

/-- Witness for C3: a run over one explicit bankdef node with item reference 1. -/
theorem initial_bank_always_defined_witness :
    (∀ n, AstAny.directiveBankdef n ∈ c3_nodes → n.item_ref ≠ 0) ∧
    store_lookup (bankdef_define ⟨[]⟩ store_empty c3_nodes).1.bankdefs 0 =
      some initial_bankdef := by
  have hp : ∀ n, AstAny.directiveBankdef n ∈ c3_nodes → n.item_ref ≠ 0 := by
    intro n hn
    simp only [c3_nodes, List.mem_cons, List.not_mem_nil, or_false] at hn
    rcases hn with hn | hn
    · injection hn with h2
      subst h2
      decide
    · cases hn
  exact ⟨hp, (initial_bank_always_defined ⟨[]⟩ store_empty c3_nodes hp).2.2.2.2.2.2⟩

/-- C8: for every bankdef directive that does not supply an `addr_unit`
expression, whenever the node is processed successfully the stored `Bankdef`'s
`addr_unit` is 8. -/
theorem bankdef_addr_unit_default (st : DefsState) (node : AstDirectiveBankdef)
    (hnone : node.addr_unit = none)
    (hok : (define_bankdef st node).2 = true) :
    ∃ b, store_lookup (define_bankdef st node).1.bankdefs node.item_ref = some b ∧
      b.addr_unit = 8 := by
  unfold define_bankdef at hok ⊢
  rw [hnone] at hok ⊢
  simp only [eval_opt_usize_default] at hok ⊢
  repeat' split at hok
  all_goals simp_all
  exact ⟨_, store_lookup_define_self _ _ _, rfl⟩

/-- Witness for C8: a bankdef node with no `addr_unit` expression. -/
theorem bankdef_addr_unit_default_witness :
    c3_node.addr_unit = none ∧
    (define_bankdef ⟨⟨[]⟩, store_empty⟩ c3_node).2 = true ∧
    ∃ b, store_lookup (define_bankdef ⟨⟨[]⟩, store_empty⟩ c3_node).1.bankdefs
        c3_node.item_ref = some b ∧ b.addr_unit = 8 :=
  ⟨rfl, rfl, bankdef_addr_unit_default ⟨⟨[]⟩, store_empty⟩ c3_node rfl rfl⟩

/-- Whether an optional expression evaluates without error to a `usize`
under the definition-time dummy provider. -/
def usize_ok : Option Expr → Bool
  | none => true
  | some e =>
    match e.value with
    | none => false
    | some i => decide (0 ≤ i) && decide (i < (USIZE_LIMIT : Int))

/-- Whether an optional expression evaluates without error under the
definition-time dummy provider. -/
def bigint_ok : Option Expr → Bool
  | none => true
  | some e => e.value.isSome

theorem eval_opt_usize_default_ok (r : Report) (d : Nat) (oe : Option Expr)
    (h : usize_ok oe = true) :
    ∃ v, eval_opt_usize_default r d oe = (Except.ok v, r) := by
  cases oe with
  | none => exact ⟨d, rfl⟩
  | some e =>
    simp only [usize_ok] at h
    cases hv : e.value with
    | none => rw [hv] at h; cases h
    | some i =>
      rw [hv] at h
      simp only [Bool.and_eq_true, decide_eq_true_eq] at h
      exact ⟨i.toNat, by simp [eval_opt_usize_default, eval_usize, hv, h.1, h.2]⟩

theorem eval_opt_usize_ok (r : Report) (oe : Option Expr)
    (h : usize_ok oe = true) :
    ∃ v, eval_opt_usize r oe = (Except.ok v, r) ∧ (oe.isSome → v.isSome) := by
  cases oe with
  | none => exact ⟨none, rfl, by simp⟩
  | some e =>
    simp only [usize_ok] at h
    cases hv : e.value with
    | none => rw [hv] at h; cases h
    | some i =>
      rw [hv] at h
      simp only [Bool.and_eq_true, decide_eq_true_eq] at h
      exact ⟨some i.toNat, by simp [eval_opt_usize, eval_usize, hv, h.1, h.2], by simp⟩

theorem eval_opt_bigint_default_ok (r : Report) (d : Int) (oe : Option Expr)
    (h : bigint_ok oe = true) :
    ∃ v, eval_opt_bigint_default r d oe = (Except.ok v, r) := by
  cases oe with
  | none => exact ⟨d, rfl⟩
  | some e =>
    simp only [bigint_ok, Option.isSome_iff_exists] at h
    obtain ⟨i, hv⟩ := h
    exact ⟨i, by simp [eval_opt_bigint_default, eval_bigint, hv]⟩

theorem eval_opt_bigint_ok (r : Report) (oe : Option Expr)
    (h : bigint_ok oe = true) :
    ∃ v, eval_opt_bigint r oe = (Except.ok v, r) ∧ (oe.isSome → v.isSome) := by
  cases oe with
  | none => exact ⟨none, rfl, by simp⟩
  | some e =>
    simp only [bigint_ok, Option.isSome_iff_exists] at h
    obtain ⟨i, hv⟩ := h
    exact ⟨some i, by simp [eval_opt_bigint, eval_bigint, hv], by simp⟩

/-- C2 (amended): for every bankdef directive that supplies both a `size`
and an `addr_end` expression, and whose field expressions all evaluate
successfully at definition time, the define pass reports the
"both `addr_end` and `size` defined" declaration error with the directive's
header span and returns failure, and the bank store is left unchanged. -/
theorem both_size_and_end_error (st : DefsState) (node : AstDirectiveBankdef)
    (hs : node.addr_size.isSome = true) (he : node.addr_end.isSome = true)
    (h1 : usize_ok node.addr_unit = true) (h2 : usize_ok node.label_align = true)
    (h3 : bigint_ok node.addr_start = true) (h4 : usize_ok node.addr_size = true)
    (h5 : bigint_ok node.addr_end = true) :
    define_bankdef st node =
      ({ report := st.report.error_span "both `addr_end` and `size` defined" node.header_span,
         bankdefs := st.bankdefs }, false) := by
  obtain ⟨v1, hv1⟩ := eval_opt_usize_default_ok st.report 8 node.addr_unit h1
  obtain ⟨v2, hv2, -⟩ := eval_opt_usize_ok st.report node.label_align h2
  obtain ⟨v3, hv3⟩ := eval_opt_bigint_default_ok st.report 0 node.addr_start h3
  obtain ⟨v4, hv4, hv4s⟩ := eval_opt_usize_ok st.report node.addr_size h4
  obtain ⟨v5, hv5, hv5s⟩ := eval_opt_bigint_ok st.report node.addr_end h5
  obtain ⟨n4, hn4⟩ := Option.isSome_iff_exists.mp (hv4s hs)
  obtain ⟨n5, hn5⟩ := Option.isSome_iff_exists.mp (hv5s he)
  unfold define_bankdef
  simp only [hv1, hv2, hv3, hv4, hv5, hn4, hn5, resolve_addr_size]

/-- Input on which the C2 claim as stated fails: both `size` and `addr_end`
are supplied, but the `addr_unit` expression fails to evaluate, so the pass
aborts with an evaluation error before the both-given check is reached. -/
def c2_node : AstDirectiveBankdef :=
  { item_ref := 1,
    addr_unit := some ⟨none, ⟨"main.asm", 2, 5⟩⟩,
    label_align := none,
    addr_start := none,
    addr_size := some ⟨some 4, ⟨"main.asm", 6, 7⟩⟩,
    addr_end := some ⟨some 8, ⟨"main.asm", 8, 9⟩⟩,
    output_offset := none,
    fill := false,
    header_span := ⟨"main.asm", 0, 10⟩ }

/-- C2 counterexample: at `c2_node`, which supplies both `size` and `addr_end`,
the define pass fails and adds no bank — but the reported error is the
evaluation error of `addr_unit` at its own span, not the declaration error at
the directive's header span, so the claim as stated is false. -/
theorem both_size_and_end_counterexample :
    ¬ (("both `addr_end` and `size` defined", c2_node.header_span) ∈
        (define_bankdef ⟨⟨[]⟩, store_empty⟩ c2_node).1.report.errors ∧
       (define_bankdef ⟨⟨[]⟩, store_empty⟩ c2_node).2 = false ∧
       store_lookup (define_bankdef ⟨⟨[]⟩, store_empty⟩ c2_node).1.bankdefs
         c2_node.item_ref = none) := by
  intro h
  exact absurd h.1 (by decide)

/-- Witness for C2 (amended): a directive carrying both `size = 4` and
`addr_end = 8` with all expressions evaluable. -/
theorem both_size_and_end_error_witness :
    ((({ item_ref := 1,
         addr_unit := none,
         label_align := none,
         addr_start := none,
         addr_size := some ⟨some 4, ⟨"main.asm", 6, 7⟩⟩,
         addr_end := some ⟨some 8, ⟨"main.asm", 8, 9⟩⟩,
         output_offset := none,
         fill := false,
         header_span := ⟨"main.asm", 0, 10⟩ } : AstDirectiveBankdef).addr_size.isSome = true) ∧
     (define_bankdef ⟨⟨[]⟩, store_empty⟩
        { item_ref := 1,
          addr_unit := none,
          label_align := none,
          addr_start := none,
          addr_size := some ⟨some 4, ⟨"main.asm", 6, 7⟩⟩,
          addr_end := some ⟨some 8, ⟨"main.asm", 8, 9⟩⟩,
          output_offset := none,
          fill := false,
          header_span := ⟨"main.asm", 0, 10⟩ } =
      ({ report := Report.error_span ⟨[]⟩ "both `addr_end` and `size` defined"
           ⟨"main.asm", 0, 10⟩,
         bankdefs := store_empty }, false))) :=
  ⟨rfl,
   both_size_and_end_error ⟨⟨[]⟩, store_empty⟩ _ rfl rfl rfl rfl rfl rfl rfl⟩

/-- Input exhibiting the unchecked bank-size multiplication: `size = 2^61`
address units at `addr_unit = 8` bits per unit, whose true bit size `2^64`
does not fit `usize`. -/
def c1_node : AstDirectiveBankdef :=
  { item_ref := 1,
    addr_unit := some ⟨some 8, ⟨"main.asm", 2, 3⟩⟩,
    label_align := none,
    addr_start := none,
    addr_size := some ⟨some (2 ^ 61), ⟨"main.asm", 4, 5⟩⟩,
    addr_end := none,
    output_offset := none,
    fill := false,
    header_span := ⟨"main.asm", 0, 10⟩ }

/-- C1: the conversion of the address-unit count to a bit size is the
unchecked `usize` product `addr_size * addr_unit` (the source marks it
`// FIXME: Multiplication can overflow`); at `c1_node` the true product is
exactly `2^64`, the stored size silently wraps to 0, the pass succeeds and
no overflow error is reported — refuting the claim that the conversion is a
checked operation that never silently wraps. -/
theorem bank_size_multiplication_wraps :
    (define_bankdef ⟨⟨[]⟩, store_empty⟩ c1_node).2 = true ∧
    (define_bankdef ⟨⟨[]⟩, store_empty⟩ c1_node).1.report.errors = [] ∧
    store_lookup (define_bankdef ⟨⟨[]⟩, store_empty⟩ c1_node).1.bankdefs 1 =
      some { item_ref := 1, addr_unit := 8, label_align := none, addr_start := 0,
             size := some 0, output_offset := none, fill := false } ∧
    2 ^ 61 * 8 = USIZE_LIMIT := by
  refine ⟨rfl, rfl, ?_, by decide⟩
  decide

/-! ## Assembly pipeline (src/asm2/mod.rs, the `run` closure) -/

inductive Stage where
  | parse
  | collectDecls
  | defineDefs
  | resolveConstants
  | matchAll
  | resolveIteratively
  | checkBankOverlap
  | buildOutput
deriving Repr, DecidableEq, Fintype

def stage_index : Stage → Nat
  | Stage.parse => 0
  | Stage.collectDecls => 1
  | Stage.defineDefs => 2
  | Stage.resolveConstants => 3
  | Stage.matchAll => 4
  | Stage.resolveIteratively => 5
  | Stage.checkBankOverlap => 6
  | Stage.buildOutput => 7

/-- The stage functions of the pipeline; their bodies live in collaborating
modules outside the excerpt, so they are parameters, while the `?`-chaining
structure below is taken from the source. `σ` stands for the compilation
state threaded through (`report`/`ast`/`decls`/`defs`). -/
structure PipelineStages (σ Out : Type) where
  parse_and_resolve_includes : σ → Except Unit σ
  collect : σ → Except Unit σ
  define : σ → Except Unit σ
  resolve_constants : σ → Except Unit σ
  match_all : σ → Except Unit σ
  resolve_iteratively : σ → Except Unit (σ × Nat)
  check_bank_overlap : σ → Except Unit σ
  build_output : σ → Except Unit Out

/-- The `run` closure of `test_new_asm`: each stage runs only if all previous
stages returned `Ok`, via the `?` operator. The second component records, in
execution order, each stage that was entered and whether it succeeded. -/
def run_pipeline {σ Out : Type} (ps : PipelineStages σ Out) (s0 : σ) :
    Except Unit Out × List (Stage × Bool) :=
  match ps.parse_and_resolve_includes s0 with
  | Except.error e => (Except.error e, [(Stage.parse, false)])
  | Except.ok s1 =>
  match ps.collect s1 with
  | Except.error e => (Except.error e, [(Stage.parse, true), (Stage.collectDecls, false)])
  | Except.ok s2 =>
  match ps.define s2 with
  | Except.error e =>
    (Except.error e,
     [(Stage.parse, true), (Stage.collectDecls, true), (Stage.defineDefs, false)])
  | Except.ok s3 =>
  match ps.resolve_constants s3 with
  | Except.error e =>
    (Except.error e,
     [(Stage.parse, true), (Stage.collectDecls, true), (Stage.defineDefs, true),
      (Stage.resolveConstants, false)])
  | Except.ok s4 =>
  match ps.match_all s4 with
  | Except.error e =>
    (Except.error e,
     [(Stage.parse, true), (Stage.collectDecls, true), (Stage.defineDefs, true),
      (Stage.resolveConstants, true), (Stage.matchAll, false)])
  | Except.ok s5 =>
  match ps.resolve_iteratively s5 with
  | Except.error e =>
    (Except.error e,
     [(Stage.parse, true), (Stage.collectDecls, true), (Stage.defineDefs, true),
      (Stage.resolveConstants, true), (Stage.matchAll, true),
      (Stage.resolveIteratively, false)])
  | Except.ok (s6, _iters) =>
  match ps.check_bank_overlap s6 with
  | Except.error e =>
    (Except.error e,
     [(Stage.parse, true), (Stage.collectDecls, true), (Stage.defineDefs, true),
      (Stage.resolveConstants, true), (Stage.matchAll, true),
      (Stage.resolveIteratively, true), (Stage.checkBankOverlap, false)])
  | Except.ok s7 =>
  match ps.build_output s7 with
  | Except.error e =>
    (Except.error e,
     [(Stage.parse, true), (Stage.collectDecls, true), (Stage.defineDefs, true),
      (Stage.resolveConstants, true), (Stage.matchAll, true),
      (Stage.resolveIteratively, true), (Stage.checkBankOverlap, true),
      (Stage.buildOutput, false)])
  | Except.ok output =>
    (Except.ok output,
     [(Stage.parse, true), (Stage.collectDecls, true), (Stage.defineDefs, true),
      (Stage.resolveConstants, true), (Stage.matchAll, true),
      (Stage.resolveIteratively, true), (Stage.checkBankOverlap, true),
      (Stage.buildOutput, true)])

/-- The stages of the pipeline in execution order. -/
def stage_list : List Stage :=
  [Stage.parse, Stage.collectDecls, Stage.defineDefs, Stage.resolveConstants,
   Stage.matchAll, Stage.resolveIteratively, Stage.checkBankOverlap, Stage.buildOutput]

/-- The trace left by a run that fails at the stage with index `n`. -/
def fail_trace (n : Nat) : List (Stage × Bool) :=
  ((stage_list.take n).map (fun s => (s, true))) ++
    [((stage_list.get? n).getD Stage.parse, false)]

/-- The trace left by a fully successful run. -/
def ok_trace : List (Stage × Bool) := stage_list.map (fun s => (s, true))

/-- Every run of the pipeline either fails at some stage `n < 8`, leaving the
all-previous-succeeded trace, or succeeds with the full trace. -/
theorem run_pipeline_cases {σ Out : Type} (ps : PipelineStages σ Out) (s0 : σ) :
    ((run_pipeline ps s0).1 = Except.error () ∧
      ∃ n, n < 8 ∧ (run_pipeline ps s0).2 = fail_trace n) ∨
    ((∃ out, (run_pipeline ps s0).1 = Except.ok out) ∧
      (run_pipeline ps s0).2 = ok_trace) := by
  unfold run_pipeline
  repeat' split
  · exact Or.inl ⟨rfl, 0, by omega, rfl⟩
  · exact Or.inl ⟨rfl, 1, by omega, rfl⟩
  · exact Or.inl ⟨rfl, 2, by omega, rfl⟩
  · exact Or.inl ⟨rfl, 3, by omega, rfl⟩
  · exact Or.inl ⟨rfl, 4, by omega, rfl⟩
  · exact Or.inl ⟨rfl, 5, by omega, rfl⟩
  · exact Or.inl ⟨rfl, 6, by omega, rfl⟩
  · exact Or.inl ⟨rfl, 7, by omega, rfl⟩
  · exact Or.inr ⟨⟨_, rfl⟩, rfl⟩

/-- C4: the output-building stage (bank-overlap check and byte-image
construction) is entered only after iterative resolution has succeeded; when
any earlier stage fails, the pipeline result is an error, no later stage is
entered, and no output is produced. -/
theorem pipeline_stage_order {σ Out : Type} (ps : PipelineStages σ Out) (s0 : σ) :
    ((Stage.checkBankOverlap ∈ (run_pipeline ps s0).2.map Prod.fst ∨
      Stage.buildOutput ∈ (run_pipeline ps s0).2.map Prod.fst) →
      (Stage.resolveIteratively, true) ∈ (run_pipeline ps s0).2)
    ∧ (∀ st, (st, false) ∈ (run_pipeline ps s0).2 →
        (run_pipeline ps s0).1 = Except.error ())
    ∧ (∀ st, (st, false) ∈ (run_pipeline ps s0).2 →
        ∀ p ∈ (run_pipeline ps s0).2, stage_index p.1 ≤ stage_index st) := by
  rcases run_pipeline_cases ps s0 with ⟨hres, n, hn, htr⟩ | ⟨⟨out, hres⟩, htr⟩
  · rw [htr]
    refine ⟨?_, fun st hst => hres, ?_⟩
    · interval_cases n <;> decide
    · interval_cases n <;> decide
  · rw [htr]
    refine ⟨by decide, fun st hst => ?_, by decide⟩
    exact absurd hst (by cases st <;> decide)

/-- Concrete stages for the C4 witness: everything succeeds except iterative
resolution. -/
def c4_stages : PipelineStages Unit Unit :=
  { parse_and_resolve_includes := fun _ => Except.ok (),
    collect := fun _ => Except.ok (),
    define := fun _ => Except.ok (),
    resolve_constants := fun _ => Except.ok (),
    match_all := fun _ => Except.ok (),
    resolve_iteratively := fun _ => Except.error (),
    check_bank_overlap := fun _ => Except.ok (),
    build_output := fun _ => Except.ok () }

/-- Witness for C4: when iterative resolution fails, the pipeline result is an
error (no output). -/
theorem pipeline_stage_order_witness :
    (Stage.resolveIteratively, false) ∈ (run_pipeline c4_stages ()).2 ∧
    (run_pipeline c4_stages ()).1 = Except.error () :=
  ⟨by decide,
   (pipeline_stage_order c4_stages ()).2.1 Stage.resolveIteratively (by decide)⟩

/-! ## Resolver (src/asm2/resolver)

The resolver module body is not part of the excerpt — only its re-exports and
its call site appear in src/asm2/mod.rs — so the definitions below are
modelled from the spec (§3 lifecycle, §4.2 fixed-point iteration, §9 design
notes). -/

/-- Modelled from the spec: the `ResolutionState` carried by a symbol —
"`Unresolved`, `Resolved(value)`, or a hard `Failed` terminal state". -/
inductive ResolutionState where
  | unresolved
  | resolved (value : Int)
  | failed
deriving Repr, DecidableEq

/-- Modelled from the spec: the value-lookup capability handed to the
expression evaluator, querying other symbols' current resolution states. -/
def ResolverEnv : Type := Nat → Option Int

/-- Modelled from the spec (§9): the three-way evaluation outcome
`Resolved(value) | Deferred | Failed(error)` — "deferred" is a currently
unresolved dependency, to be retried next pass; "error" is a genuine error. -/
inductive EvalOutcome where
  | value (v : Int)
  | deferred
  | error
deriving Repr, DecidableEq

/-- Modelled from the spec: a symbol with its defining expression (represented
by its evaluation behavior under a value-lookup environment) and its current
resolution state. -/
structure Sym where
  eval : ResolverEnv → EvalOutcome
  state : ResolutionState

/-- Modelled from the spec: one shape-matched instruction candidate; its
evaluation represents parameter binding plus `assert` checks —
`value v` = all asserts pass with fully-known inputs and encoding value `v`,
`deferred` = undetermined with current knowledge, `error` = disqualified. -/
structure Candidate where
  id : Nat
  eval : ResolverEnv → EvalOutcome

/-- Modelled from the spec: an instruction site with its surviving candidate
matches and, once settled, the chosen candidate and final value. -/
structure Instr where
  candidates : List Candidate
  resolution : Option (Nat × Int)

/-- Modelled from the spec: the mutable portion of the definition store seen
by the resolver — symbols and instructions in declaration order. -/
structure ResolverState where
  syms : List Sym
  instrs : List Instr

/-- The value-lookup environment over the current state: only `Resolved`
symbols answer. -/
def env_of (s : ResolverState) : ResolverEnv := fun i =>
  match (s.syms.get? i).map Sym.state with
  | some (ResolutionState.resolved v) => some v
  | _ => none

/-- Replace the element at index `i` (no-op when out of range). -/
def list_modify {α : Type} (f : α → α) : Nat → List α → List α
  | _, [] => []
  | 0, a :: as => f a :: as
  | n + 1, a :: as => a :: list_modify f n as

/-- Modelled from the spec (§4.2, symbols): attempt to evaluate an unresolved
symbol with current knowledge; success resolves it (productive), a deferred
dependency leaves it untouched, a genuine error fails it (hard error).
Returns (state, productive, hard error). -/
def step_sym (s : ResolverState) (i : Nat) : ResolverState × Bool × Bool :=
  match s.syms.get? i with
  | none => (s, false, false)
  | some sym =>
    match sym.state with
    | ResolutionState.resolved _ => (s, false, false)
    | ResolutionState.failed => (s, false, false)
    | ResolutionState.unresolved =>
      match sym.eval (env_of s) with
      | EvalOutcome.value v =>
        ({ s with syms :=
            (list_modify (fun sy => { sy with state := ResolutionState.resolved v })
              i s.syms) }, true, false)
      | EvalOutcome.deferred => (s, false, false)
      | EvalOutcome.error =>
        ({ s with syms :=
            (list_modify (fun sy => { sy with state := ResolutionState.failed })
              i s.syms) }, false, true)

/-- Modelled from the spec: the candidates of an instruction that survive
pruning under current knowledge — those whose asserts have not evaluated to
false with fully-known inputs. -/
def survivors_of (s : ResolverState) (ins : Instr) : List Candidate :=
  ins.candidates.filter (fun c => c.eval (env_of s) != EvalOutcome.error)

/-- Whether the candidate-set of `ins` shrank during this step. -/
def pruned_some (s : ResolverState) (ins : Instr) : Bool :=
  decide ((survivors_of s ins).length < ins.candidates.length)

/-- Modelled from the spec (§4.2, instructions): prune candidates whose asserts
fail with known inputs; accept a sole survivor whose value is fully known;
zero survivors or more than one fully-valid survivor is a hard error. -/
def step_instr (s : ResolverState) (i : Nat) : ResolverState × Bool × Bool :=
  match s.instrs.get? i with
  | none => (s, false, false)
  | some ins =>
    match ins.resolution with
    | some _ => (s, false, false)
    | none =>
      if (survivors_of s ins).isEmpty then
        -- hard error: "no rule matches for given arguments"
        ({ s with instrs :=
            (list_modify (fun j => { j with candidates := survivors_of s ins })
              i s.instrs) }, pruned_some s ins, true)
      else
        match survivors_of s ins with
        | [c] =>
          match c.eval (env_of s) with
          | EvalOutcome.value v =>
            ({ s with instrs :=
                (list_modify (fun _ => { candidates := [c], resolution := some (c.id, v) })
                  i s.instrs) }, true, false)
          | _ =>
            ({ s with instrs :=
                (list_modify (fun j => { j with candidates := survivors_of s ins })
                  i s.instrs) }, pruned_some s ins, false)
        | _ =>
          if (survivors_of s ins).all (fun c =>
              match c.eval (env_of s) with
              | EvalOutcome.value _ => true
              | _ => false) then
            -- hard ambiguity error: more than one fully-valid candidate
            ({ s with instrs :=
                (list_modify (fun j => { j with candidates := survivors_of s ins })
                  i s.instrs) }, pruned_some s ins, true)
          else
            ({ s with instrs :=
                (list_modify (fun j => { j with candidates := survivors_of s ins })
                  i s.instrs) }, pruned_some s ins, false)

/-- Run `step` at indices `0, 1, ..., n-1` in declaration order, accumulating
the productive and hard-error flags. -/
def fold_steps (step : ResolverState → Nat → ResolverState × Bool × Bool)
    (s : ResolverState) : Nat → ResolverState × Bool × Bool
  | 0 => (s, false, false)
  | n + 1 =>
    match fold_steps step s n with
    | (s1, p1, h1) =>
      match step s1 n with
      | (s2, p2, h2) => (s2, p1 || p2, h1 || h2)

/-- Modelled from the spec (§4.2): one full pass over every symbol and
instruction in declaration order. -/
def run_pass (s : ResolverState) : ResolverState × Bool × Bool :=
  match fold_steps step_sym s s.syms.length with
  | (s1, p1, h1) =>
    match fold_steps step_instr s1 s1.instrs.length with
    | (s2, p2, h2) => (s2, p1 || p2, h1 || h2)

def unresolved_count (s : ResolverState) : Nat :=
  (s.syms.filter (fun sy => sy.state == ResolutionState.unresolved)).length +
  (s.instrs.filter (fun ins => ins.resolution.isNone)).length

inductive ResolveError where
  | hardError
  | circularDependency
  | maxIterationsExceeded
deriving Repr, DecidableEq

/-- Modelled from the spec (§4.2 progress bookkeeping): the fixed-point loop.
A hard error halts with failure; a productive pass is followed by another
pass; a non-productive pass succeeds when nothing is left unresolved and
reports a circular/unresolved-dependency error otherwise; the fuel running
out reports that the iteration ceiling was exceeded. The returned number is
the count of passes actually run. -/
def resolve_loop (s : ResolverState) (fuel iters : Nat) :
    Except ResolveError (ResolverState × Nat) :=
  match fuel with
  | 0 => Except.error ResolveError.maxIterationsExceeded
  | fuel' + 1 =>
    match run_pass s with
    | (s', productive, hardErr) =>
      if hardErr then Except.error ResolveError.hardError
      else if productive then resolve_loop s' fuel' (iters + 1)
      else if unresolved_count s' == 0 then Except.ok (s', iters + 1)
      else Except.error ResolveError.circularDependency

/-- `resolver::resolve_iteratively` with a caller-supplied maximum iteration
count (10 at the reference call site). -/
def resolve_iteratively (max_iterations : Nat) (s : ResolverState) :
    Except ResolveError (ResolverState × Nat) :=
  resolve_loop s max_iterations 0

def sym_state_at (s : ResolverState) (i : Nat) : Option ResolutionState :=
  (s.syms.get? i).map Sym.state

/-- Forward-only resolution between two states: `Resolved` and `Failed` symbol
states persist with the same value, any state change starts from `Unresolved`,
instruction candidate sets only shrink (so the pruned set only grows), and a
settled instruction resolution persists. -/
def Mono (s s' : ResolverState) : Prop :=
  (∀ i v, sym_state_at s i = some (ResolutionState.resolved v) →
    sym_state_at s' i = some (ResolutionState.resolved v)) ∧
  (∀ i, sym_state_at s i = some ResolutionState.failed →
    sym_state_at s' i = some ResolutionState.failed) ∧
  (∀ i st0 st1, sym_state_at s i = some st0 → sym_state_at s' i = some st1 →
    st0 ≠ st1 → st0 = ResolutionState.unresolved) ∧
  (∀ i ins', s'.instrs.get? i = some ins' →
    ∃ ins, s.instrs.get? i = some ins ∧
      (∀ c, c ∈ ins'.candidates → c ∈ ins.candidates) ∧
      (∀ r, ins.resolution = some r → ins'.resolution = some r))

theorem Mono_refl (s : ResolverState) : Mono s s := by
  refine ⟨fun i v h => h, fun i h => h, ?_, ?_⟩
  · intro i st0 st1 h0 h1 hne
    rw [h0] at h1
    exact absurd (Option.some.inj h1) hne
  · intro i ins' h
    exact ⟨ins', h, fun c hc => hc, fun r hr => hr⟩

theorem Mono_trans {s t u : ResolverState} (h1 : Mono s t) (h2 : Mono t u) : Mono s u := by
  obtain ⟨r1, f1, w1, i1⟩ := h1
  obtain ⟨r2, f2, w2, i2⟩ := h2
  refine ⟨fun i v h => r2 i v (r1 i v h), fun i h => f2 i (f1 i h), ?_, ?_⟩
  · intro i st0 st1 h0 h1 hne
    by_cases hmid : sym_state_at t i = some st0
    · exact w2 i st0 st1 hmid h1 hne
    · cases st0 with
      | unresolved => rfl
      | resolved v => exact absurd (r1 i v h0) hmid
      | failed => exact absurd (f1 i h0) hmid
  · intro i ins'' h
    obtain ⟨ins', h', hc', hr'⟩ := i2 i ins'' h
    obtain ⟨ins, hi, hc, hr⟩ := i1 i ins' h'
    exact ⟨ins, hi, fun c hc2 => hc c (hc' c hc2), fun r hrr => hr' r (hr r hrr)⟩

theorem list_modify_get? {α : Type} (f : α → α) :
    ∀ (n : Nat) (l : List α) (m : Nat),
      (list_modify f n l).get? m = if m = n then (l.get? m).map f else l.get? m := by
  intro n l
  induction l generalizing n with
  | nil => intro m; simp [list_modify]
  | cons a as ih =>
    intro m
    cases n with
    | zero =>
      cases m with
      | zero => simp [list_modify]
      | succ m => simp [list_modify]
    | succ n =>
      cases m with
      | zero => simp [list_modify]
      | succ m =>
        simp only [list_modify, List.get?_cons_succ, ih n m]
        by_cases hmn : m = n
        · simp [hmn]
        · simp [hmn, fun h => hmn (Nat.succ_injective h)]

/-- Modifying a symbol that is currently `Unresolved` is forward-only. -/
theorem mono_sym_modify (s : ResolverState) (i : Nat) (sym : Sym) (f : Sym → Sym)
    (hget : s.syms.get? i = some sym)
    (hstate : sym.state = ResolutionState.unresolved) :
    Mono s { s with syms := list_modify f i s.syms } := by
  refine ⟨?_, ?_, ?_, ?_⟩
  · intro j v hj
    simp only [sym_state_at] at hj ⊢
    rw [list_modify_get?]
    by_cases hji : j = i
    · subst hji
      rw [hget] at hj
      simp [hstate] at hj
    · rw [if_neg hji]
      exact hj
  · intro j hj
    simp only [sym_state_at] at hj ⊢
    rw [list_modify_get?]
    by_cases hji : j = i
    · subst hji
      rw [hget] at hj
      simp [hstate] at hj
    · rw [if_neg hji]
      exact hj
  · intro j st0 st1 h0 h1 hne
    by_cases hji : j = i
    · subst hji
      simp only [sym_state_at, hget, Option.map_some'] at h0
      rw [hstate] at h0
      exact (Option.some.inj h0).symm
    · simp only [sym_state_at] at h0 h1
      rw [list_modify_get?, if_neg hji] at h1
      rw [h0] at h1
      exact absurd (Option.some.inj h1) hne
  · intro j ins' h
    exact ⟨ins', h, fun c hc => hc, fun r hr => hr⟩

/-- Modifying one instruction so that its candidates shrink and its settled
resolution persists is forward-only. -/
theorem mono_instr_modify (s : ResolverState) (i : Nat) (f : Instr → Instr)
    (hf : ∀ ins, s.instrs.get? i = some ins →
      ((∀ c, c ∈ (f ins).candidates → c ∈ ins.candidates) ∧
       (∀ r, ins.resolution = some r → (f ins).resolution = some r))) :
    Mono s { s with instrs := list_modify f i s.instrs } := by
  refine ⟨fun j v h => h, fun j h => h, ?_, ?_⟩
  · intro j st0 st1 h0 h1 hne
    simp only [sym_state_at] at h0 h1
    rw [h0] at h1
    exact absurd (Option.some.inj h1) hne
  · intro j ins' h
    simp only [] at h
    rw [list_modify_get?] at h
    by_cases hji : j = i
    · subst hji
      rw [if_pos rfl] at h
      cases hget : s.instrs.get? j with
      | none => rw [hget] at h; cases h
      | some ins =>
        rw [hget] at h
        simp only [Option.map_some'] at h
        obtain ⟨hc, hr⟩ := hf ins hget
        have hfi : f ins = ins' := Option.some.inj h
        refine ⟨ins, rfl, ?_, ?_⟩
        · intro c hcm
          rw [← hfi] at hcm
          exact hc c hcm
        · intro r hrr
          rw [← hfi]
          exact hr r hrr
    · rw [if_neg hji] at h
      exact ⟨ins', h, fun c hc => hc, fun r hr => hr⟩

theorem step_sym_mono (s : ResolverState) (i : Nat) : Mono s (step_sym s i).1 := by
  unfold step_sym
  split
  · exact Mono_refl s
  · rename_i sym hget
    split
    · exact Mono_refl s
    · exact Mono_refl s
    · rename_i hstate
      split
      · rename_i v heval
        exact mono_sym_modify s i sym _ hget hstate
      · exact Mono_refl s
      · exact mono_sym_modify s i sym _ hget hstate

theorem step_instr_mono (s : ResolverState) (i : Nat) : Mono s (step_instr s i).1 := by
  unfold step_instr
  split
  · exact Mono_refl s
  · rename_i ins0 hget
    split
    · exact Mono_refl s
    · rename_i hres
      split
      · -- zero survivors: candidates replaced by the (empty) filter result
        refine mono_instr_modify s i _ ?_
        intro ins hins
        rw [hget] at hins
        cases hins
        exact ⟨fun c hc => List.mem_of_mem_filter hc, fun r hr => hr⟩
      · split
        · rename_i c hsurv
          split
          · rename_i v heval
            -- sole survivor accepted
            refine mono_instr_modify s i _ ?_
            intro ins hins
            rw [hget] at hins
            cases hins
            constructor
            · intro c' hc'
              simp only [List.mem_singleton] at hc'
              have hmem : c' ∈ survivors_of s ins0 := by
                rw [hsurv, hc']
                exact List.mem_singleton_self c
              exact List.mem_of_mem_filter hmem
            · intro r hr
              rw [hres] at hr
              cases hr
          · refine mono_instr_modify s i _ ?_
            intro ins hins
            rw [hget] at hins
            cases hins
            exact ⟨fun c hc => List.mem_of_mem_filter hc, fun r hr => hr⟩
        · split
          · refine mono_instr_modify s i _ ?_
            intro ins hins
            rw [hget] at hins
            cases hins
            exact ⟨fun c hc => List.mem_of_mem_filter hc, fun r hr => hr⟩
          · refine mono_instr_modify s i _ ?_
            intro ins hins
            rw [hget] at hins
            cases hins
            exact ⟨fun c hc => List.mem_of_mem_filter hc, fun r hr => hr⟩

theorem fold_steps_mono (step : ResolverState → Nat → ResolverState × Bool × Bool)
    (hstep : ∀ s i, Mono s (step s i).1) (s : ResolverState) :
    ∀ n, Mono s (fold_steps step s n).1 := by
  intro n
  induction n with
  | zero => exact Mono_refl s
  | succ n ih =>
    unfold fold_steps
    split
    rename_i s1 p1 h1 heq
    split
    rename_i s2 p2 h2 heq2
    have hm1 : Mono s s1 := by
      have := ih
      rw [heq] at this
      exact this
    have hm2 : Mono s1 s2 := by
      have := hstep s1 n
      rw [heq2] at this
      exact this
    exact Mono_trans hm1 hm2

theorem run_pass_mono (s : ResolverState) : Mono s (run_pass s).1 := by
  unfold run_pass
  split
  rename_i s1 p1 h1 heq
  split
  rename_i s2 p2 h2 heq2
  have hm1 : Mono s s1 := by
    have := fold_steps_mono step_sym step_sym_mono s s.syms.length
    rw [heq] at this
    exact this
  have hm2 : Mono s1 s2 := by
    have := fold_steps_mono step_instr step_instr_mono s1 s1.instrs.length
    rw [heq2] at this
    exact this
  exact Mono_trans hm1 hm2

/-- Iterated productive, error-free resolver passes. -/
inductive PassReaches : ResolverState → ResolverState → Prop where
  | refl (s : ResolverState) : PassReaches s s
  | step {s t u : ResolverState} :
      PassReaches s t → run_pass t = (u, true, false) → PassReaches s u

theorem PassReaches_mono {s s' : ResolverState} (h : PassReaches s s') : Mono s s' := by
  induction h with
  | refl => exact Mono_refl _
  | step hreach hpass ih =>
    rename_i t u
    have : Mono t u := by
      have := run_pass_mono t
      rw [hpass] at this
      exact this
    exact Mono_trans ih this

/-- C5: across resolver passes the set of `Resolved` symbols and the set of
pruned instruction candidates only grow: `Resolved` and `Failed` states
persist, every state change starts from `Unresolved`, candidate sets only
shrink, and settled instruction resolutions persist — both for a single pass
and along any chain of passes. -/
theorem resolver_monotone :
    (∀ s : ResolverState, Mono s (run_pass s).1) ∧
    (∀ s s' : ResolverState, PassReaches s s' → Mono s s') :=
  ⟨run_pass_mono, fun _ _ h => PassReaches_mono h⟩

/-- Witness for C5 at the empty resolver state. -/
theorem resolver_monotone_witness : Mono ⟨[], []⟩ ⟨[], []⟩ :=
  resolver_monotone.2 ⟨[], []⟩ ⟨[], []⟩ (PassReaches.refl ⟨[], []⟩)

theorem filter_length_eq_self {α : Type} (p : α → Bool) :
    ∀ l : List α, (l.filter p).length = l.length → l.filter p = l := by
  intro l
  induction l with
  | nil => intro h; rfl
  | cons a as ih =>
    intro h
    by_cases hp : p a
    · rw [List.filter_cons_of_pos hp] at h ⊢
      simp only [List.length_cons, Nat.succ.injEq] at h
      rw [ih h]
    · rw [List.filter_cons_of_neg hp] at h
      have := List.length_filter_le p as
      simp only [List.length_cons] at h
      omega

theorem list_modify_id {α : Type} (f : α → α) :
    ∀ (n : Nat) (l : List α) (a : α), l.get? n = some a → f a = a →
      list_modify f n l = l := by
  intro n l
  induction l generalizing n with
  | nil => intro a h; cases h
  | cons x xs ih =>
    intro a h hf
    cases n with
    | zero =>
      simp only [List.get?_cons_zero, Option.some.injEq] at h
      subst h
      simp [list_modify, hf]
    | succ n =>
      simp only [List.get?_cons_succ] at h
      simp [list_modify, ih n a h hf]

/-- A step that is neither productive nor a hard error leaves the state
unchanged (symbols). -/
theorem step_sym_noop {s : ResolverState} {i : Nat} {s' : ResolverState}
    (h : step_sym s i = (s', false, false)) : s' = s := by
  unfold step_sym at h
  repeat' split at h
  all_goals simp_all

/-- When nothing was pruned, rewriting an instruction's candidates to its
survivors is the identity. -/
theorem noop_from_pruned {s : ResolverState} {i : Nat} {ins0 : Instr}
    (hget : s.instrs.get? i = some ins0)
    (hp : pruned_some s ins0 = false) :
    ({ s with instrs :=
        (list_modify (fun j => { j with candidates := survivors_of s ins0 })
          i s.instrs) } : ResolverState) = s := by
  have hfull : survivors_of s ins0 = ins0.candidates := by
    have hle := List.length_filter_le
      (fun c => c.eval (env_of s) != EvalOutcome.error) ins0.candidates
    have hnlt : ¬ ((survivors_of s ins0).length < ins0.candidates.length) := by
      intro hlt
      unfold pruned_some at hp
      rw [decide_eq_true hlt] at hp
      cases hp
    refine filter_length_eq_self _ _ ?_
    unfold survivors_of at hnlt
    omega
  have hid : list_modify (fun j => { j with candidates := survivors_of s ins0 })
      i s.instrs = s.instrs := by
    refine list_modify_id _ i s.instrs ins0 hget ?_
    rw [hfull]
  rw [hid]

/-- A step that is neither productive nor a hard error leaves the state
unchanged (instructions). -/
theorem step_instr_noop {s : ResolverState} {i : Nat} {s' : ResolverState}
    (h : step_instr s i = (s', false, false)) : s' = s := by
  unfold step_instr at h
  split at h
  · simp only [Prod.mk.injEq] at h
    exact h.1.symm
  · rename_i ins0 hget
    split at h
    · simp only [Prod.mk.injEq] at h
      exact h.1.symm
    · rename_i hres
      split at h
      · simp only [Prod.mk.injEq] at h
        exact absurd h.2.2 (by simp)
      · split at h
        · rename_i c hsurv
          split at h
          · simp only [Prod.mk.injEq] at h
            exact absurd h.2.1 (by simp)
          · simp only [Prod.mk.injEq] at h
            obtain ⟨hs, hp, -⟩ := h
            rw [← hs]
            exact noop_from_pruned hget hp
        · split at h
          · simp only [Prod.mk.injEq] at h
            exact absurd h.2.2 (by simp)
          · simp only [Prod.mk.injEq] at h
            obtain ⟨hs, hp, -⟩ := h
            rw [← hs]
            exact noop_from_pruned hget hp

theorem fold_steps_noop (step : ResolverState → Nat → ResolverState × Bool × Bool)
    (hstep : ∀ s i s', step s i = (s', false, false) → s' = s) (s : ResolverState) :
    ∀ n s', fold_steps step s n = (s', false, false) → s' = s := by
  intro n
  induction n with
  | zero =>
    intro s' h
    simp only [fold_steps, Prod.mk.injEq] at h
    exact h.1.symm
  | succ n ih =>
    intro s' h
    unfold fold_steps at h
    split at h
    rename_i s1 p1 h1 heq
    split at h
    rename_i s2 p2 h2 heq2
    simp only [Prod.mk.injEq, Bool.or_eq_false_iff] at h
    obtain ⟨hs, ⟨hp1, hp2⟩, hh1, hh2⟩ := h
    subst hp1; subst hp2; subst hh1; subst hh2
    have e1 : s1 = s := ih s1 heq
    have e2 : s2 = s1 := hstep s1 n s2 heq2
    rw [← hs, e2, e1]

theorem run_pass_noop {s s' : ResolverState}
    (h : run_pass s = (s', false, false)) : s' = s := by
  unfold run_pass at h
  split at h
  rename_i s1 p1 h1 heq
  split at h
  rename_i s2 p2 h2 heq2
  simp only [Prod.mk.injEq, Bool.or_eq_false_iff] at h
  obtain ⟨hs, ⟨hp1, hp2⟩, hh1, hh2⟩ := h
  subst hp1; subst hp2; subst hh1; subst hh2
  have e1 : s1 = s :=
    fold_steps_noop step_sym (fun _ _ _ hh => step_sym_noop hh) s s.syms.length s1 heq
  have e2 : s2 = s1 :=
    fold_steps_noop step_instr (fun _ _ _ hh => step_instr_noop hh) s1 s1.instrs.length s2 heq2
  rw [← hs, e2, e1]

theorem resolve_loop_ok :
    ∀ (fuel : Nat) (s : ResolverState) (iters : Nat) (s' : ResolverState) (n : Nat),
      resolve_loop s fuel iters = Except.ok (s', n) →
      iters < n ∧ n ≤ iters + fuel ∧ unresolved_count s' = 0 ∧
        run_pass s' = (s', false, false) := by
  intro fuel
  induction fuel with
  | zero =>
    intro s iters s' n h
    simp [resolve_loop] at h
  | succ fuel ih =>
    intro s iters s' n h
    unfold resolve_loop at h
    split at h
    rename_i s1 p herr heq
    by_cases hh : herr = true
    · rw [if_pos hh] at h
      cases h
    · rw [if_neg hh] at h
      have hh' : herr = false := by cases herr <;> simp_all
      subst hh'
      by_cases hp : p = true
      · rw [if_pos hp] at h
        obtain ⟨ha, hb, hc, hd⟩ := ih s1 (iters + 1) s' n h
        exact ⟨by omega, by omega, hc, hd⟩
      · rw [if_neg hp] at h
        have hp' : p = false := by cases p <;> simp_all
        subst hp'
        by_cases hcnt : (unresolved_count s1 == 0) = true
        · rw [if_pos hcnt] at h
          simp only [Except.ok.injEq, Prod.mk.injEq] at h
          obtain ⟨hs, hn⟩ := h
          have hfix : s1 = s := run_pass_noop heq
          refine ⟨by omega, by omega, ?_, ?_⟩
          · rw [← hs]
            simpa using hcnt
          · rw [← hs, hfix]
            rw [hfix] at heq
            exact heq
        · rw [if_neg hcnt] at h
          cases h

theorem PassReaches_front {s t u : ResolverState}
    (hpass : run_pass s = (t, true, false)) (h : PassReaches t u) : PassReaches s u := by
  induction h with
  | refl => exact PassReaches.step (PassReaches.refl s) hpass
  | step hreach hpass2 ih => exact PassReaches.step ih hpass2

theorem resolve_loop_circular :
    ∀ (fuel : Nat) (s : ResolverState) (iters : Nat),
      resolve_loop s fuel iters = Except.error ResolveError.circularDependency →
      ∃ s'', PassReaches s s'' ∧ (run_pass s'').2.1 = false ∧ (run_pass s'').2.2 = false ∧
        unresolved_count (run_pass s'').1 ≠ 0 := by
  intro fuel
  induction fuel with
  | zero =>
    intro s iters h
    simp [resolve_loop] at h
  | succ fuel ih =>
    intro s iters h
    unfold resolve_loop at h
    split at h
    rename_i s1 p herr heq
    by_cases hh : herr = true
    · rw [if_pos hh] at h
      simp at h
    · rw [if_neg hh] at h
      have hh' : herr = false := by cases herr <;> simp_all
      subst hh'
      by_cases hp : p = true
      · rw [if_pos hp] at h
        subst hp
        obtain ⟨s'', hreach, ha, hb, hc⟩ := ih s1 (iters + 1) h
        exact ⟨s'', PassReaches_front heq hreach, ha, hb, hc⟩
      · rw [if_neg hp] at h
        have hp' : p = false := by cases p <;> simp_all
        subst hp'
        by_cases hcnt : (unresolved_count s1 == 0) = true
        · rw [if_pos hcnt] at h
          cases h
        · rw [if_neg hcnt] at h
          refine ⟨s, PassReaches.refl s, ?_, ?_, ?_⟩
          · rw [heq]
          · rw [heq]
          · rw [heq]
            simpa using hcnt

/-- A chain of exactly `n` productive, error-free passes. -/
inductive ProductiveChain : Nat → ResolverState → ResolverState → Prop where
  | refl (s : ResolverState) : ProductiveChain 0 s s
  | step {n : Nat} {s t u : ResolverState} :
      run_pass s = (t, true, false) → ProductiveChain n t u →
      ProductiveChain (n + 1) s u

theorem resolve_loop_ceiling :
    ∀ (fuel : Nat) (s : ResolverState) (iters : Nat),
      resolve_loop s fuel iters = Except.error ResolveError.maxIterationsExceeded →
      ∃ s'', ProductiveChain fuel s s'' := by
  intro fuel
  induction fuel with
  | zero =>
    intro s iters h
    exact ⟨s, ProductiveChain.refl s⟩
  | succ fuel ih =>
    intro s iters h
    unfold resolve_loop at h
    split at h
    rename_i s1 p herr heq
    by_cases hh : herr = true
    · rw [if_pos hh] at h
      simp at h
    · rw [if_neg hh] at h
      have hh' : herr = false := by cases herr <;> simp_all
      subst hh'
      by_cases hp : p = true
      · rw [if_pos hp] at h
        subst hp
        obtain ⟨s'', hchain⟩ := ih s1 (iters + 1) h
        exact ⟨s'', ProductiveChain.step heq hchain⟩
      · rw [if_neg hp] at h
        by_cases hcnt : (unresolved_count s1 == 0) = true
        · rw [if_pos hcnt] at h
          cases h
        · rw [if_neg hcnt] at h
          simp at h

/-- C6: `resolve_iteratively` takes a caller-supplied maximum iteration count
and, on success, returns the number of passes actually run (between 1 and the
maximum), finishing at a fixed point: a non-productive, error-free pass with
zero remaining unresolved items. When instead the loop stalls — some reachable
state has a non-productive, error-free pass that still leaves unresolved
items — it reports the circular/unresolved-dependency error. (Running out of
the iteration ceiling reports `maxIterationsExceeded`; the loop always
terminates because each pass consumes fuel.) -/
theorem resolve_iteratively_spec (max_iterations : Nat) (s : ResolverState) :
    (∀ s' n, resolve_iteratively max_iterations s = Except.ok (s', n) →
      1 ≤ n ∧ n ≤ max_iterations ∧ unresolved_count s' = 0 ∧
        run_pass s' = (s', false, false)) ∧
    (resolve_iteratively max_iterations s = Except.error ResolveError.circularDependency →
      ∃ s'', PassReaches s s'' ∧ (run_pass s'').2.1 = false ∧ (run_pass s'').2.2 = false ∧
        unresolved_count (run_pass s'').1 ≠ 0) ∧
    (resolve_iteratively max_iterations s = Except.error ResolveError.maxIterationsExceeded →
      ∃ s'', ProductiveChain max_iterations s s'') := by
  refine ⟨?_, ?_, ?_⟩
  · intro s' n h
    obtain ⟨ha, hb, hc, hd⟩ := resolve_loop_ok max_iterations s 0 s' n h
    exact ⟨by omega, by omega, hc, hd⟩
  · intro h
    exact resolve_loop_circular max_iterations s 0 h
  · intro h
    exact resolve_loop_ceiling max_iterations s 0 h

/-- Witness for C6 at the empty resolver state with the reference iteration
ceiling 10: success in exactly one pass. -/
theorem resolve_iteratively_spec_witness :
    1 ≤ 1 ∧ 1 ≤ 10 ∧ unresolved_count ⟨[], []⟩ = 0 ∧
      run_pass ⟨[], []⟩ = (⟨[], []⟩, false, false) :=
  (resolve_iteratively_spec 10 ⟨[], []⟩).1 ⟨[], []⟩ 1 rfl

/-- The fixed-point loop as a relation between an initial state and a final
outcome, mirroring the decisions of `resolve_loop` pass by pass. -/
inductive LoopRel : ResolverState → Nat → Nat → Except ResolveError (ResolverState × Nat) → Prop where
  | ceiling (s : ResolverState) (iters : Nat) :
      LoopRel s 0 iters (Except.error ResolveError.maxIterationsExceeded)
  | hard {s : ResolverState} {fuel iters : Nat} {s' : ResolverState} {p : Bool} :
      run_pass s = (s', p, true) →
      LoopRel s (fuel + 1) iters (Except.error ResolveError.hardError)
  | productive {s : ResolverState} {fuel iters : Nat} {s' : ResolverState}
      {r : Except ResolveError (ResolverState × Nat)} :
      run_pass s = (s', true, false) → LoopRel s' fuel (iters + 1) r →
      LoopRel s (fuel + 1) iters r
  | fixpoint {s : ResolverState} {fuel iters : Nat} {s' : ResolverState} :
      run_pass s = (s', false, false) → unresolved_count s' = 0 →
      LoopRel s (fuel + 1) iters (Except.ok (s', iters + 1))
  | circular {s : ResolverState} {fuel iters : Nat} {s' : ResolverState} :
      run_pass s = (s', false, false) → unresolved_count s' ≠ 0 →
      LoopRel s (fuel + 1) iters (Except.error ResolveError.circularDependency)

theorem LoopRel_deterministic {s : ResolverState} {fuel iters : Nat}
    {r1 r2 : Except ResolveError (ResolverState × Nat)}
    (h1 : LoopRel s fuel iters r1) (h2 : LoopRel s fuel iters r2) : r1 = r2 := by
  induction h1 generalizing r2 with
  | ceiling s iters =>
    cases h2 with
    | ceiling => rfl
  | hard hp =>
    cases h2 with
    | hard hp2 => rfl
    | productive hp2 hrec2 =>
      rw [hp] at hp2
      simp at hp2
    | fixpoint hp2 hc2 =>
      rw [hp] at hp2
      simp at hp2
    | circular hp2 hc2 =>
      rw [hp] at hp2
      simp at hp2
  | productive hp hrec ih =>
    cases h2 with
    | hard hp2 =>
      rw [hp] at hp2
      simp at hp2
    | productive hp2 hrec2 =>
      rw [hp] at hp2
      simp only [Prod.mk.injEq] at hp2
      obtain ⟨he, -, -⟩ := hp2
      rw [← he] at hrec2
      exact ih hrec2
    | fixpoint hp2 hc2 =>
      rw [hp] at hp2
      simp at hp2
    | circular hp2 hc2 =>
      rw [hp] at hp2
      simp at hp2
  | fixpoint hp hc =>
    cases h2 with
    | hard hp2 =>
      rw [hp] at hp2
      simp at hp2
    | productive hp2 hrec2 =>
      rw [hp] at hp2
      simp at hp2
    | fixpoint hp2 hc2 =>
      rw [hp] at hp2
      simp only [Prod.mk.injEq] at hp2
      obtain ⟨he, -, -⟩ := hp2
      rw [he]
    | circular hp2 hc2 =>
      rw [hp] at hp2
      simp only [Prod.mk.injEq] at hp2
      obtain ⟨he, -, -⟩ := hp2
      rw [he] at hc
      exact absurd hc hc2
  | circular hp hc =>
    cases h2 with
    | hard hp2 =>
      rw [hp] at hp2
      simp at hp2
    | productive hp2 hrec2 =>
      rw [hp] at hp2
      simp at hp2
    | fixpoint hp2 hc2 =>
      rw [hp] at hp2
      simp only [Prod.mk.injEq] at hp2
      obtain ⟨he, -, -⟩ := hp2
      rw [he] at hc
      exact absurd hc2 hc
    | circular hp2 hc2 => rfl

/-- The loop function realizes the loop relation. -/
theorem LoopRel_resolve_loop :
    ∀ (fuel : Nat) (s : ResolverState) (iters : Nat),
      LoopRel s fuel iters (resolve_loop s fuel iters) := by
  intro fuel
  induction fuel with
  | zero =>
    intro s iters
    exact LoopRel.ceiling s iters
  | succ fuel ih =>
    intro s iters
    unfold resolve_loop
    split
    rename_i s1 p herr heq
    by_cases hh : herr = true
    · rw [if_pos hh]
      subst hh
      exact LoopRel.hard heq
    · rw [if_neg hh]
      have hh' : herr = false := by cases herr <;> simp_all
      subst hh'
      by_cases hp : p = true
      · rw [if_pos hp]
        subst hp
        exact LoopRel.productive heq (ih s1 (iters + 1))
      · rw [if_neg hp]
        have hp' : p = false := by cases p <;> simp_all
        subst hp'
        by_cases hcnt : (unresolved_count s1 == 0) = true
        · rw [if_pos hcnt]
          exact LoopRel.fixpoint heq (by simpa using hcnt)
        · rw [if_neg hcnt]
          exact LoopRel.circular heq (by simpa using hcnt)

/-- C7: resolution is deterministic — any two outcomes the loop relation
admits from the same state, fuel and iteration count coincide, equal the one
computed by `resolve_iteratively`, and in particular agree on every final
symbol state, every chosen instruction resolution, and the iteration count. -/
theorem resolution_deterministic (s : ResolverState) (max_iterations : Nat)
    (r1 r2 : Except ResolveError (ResolverState × Nat))
    (h1 : LoopRel s max_iterations 0 r1) (h2 : LoopRel s max_iterations 0 r2) :
    r1 = r2 ∧ r1 = resolve_iteratively max_iterations s ∧
    (∀ s1 n1 s2 n2, r1 = Except.ok (s1, n1) → r2 = Except.ok (s2, n2) →
      (∀ i, sym_state_at s1 i = sym_state_at s2 i) ∧
      (∀ i, (s1.instrs.get? i).map Instr.resolution =
        (s2.instrs.get? i).map Instr.resolution) ∧
      n1 = n2) := by
  have h12 : r1 = r2 := LoopRel_deterministic h1 h2
  have hres : r1 = resolve_iteratively max_iterations s :=
    LoopRel_deterministic h1 (LoopRel_resolve_loop max_iterations s 0)
  refine ⟨h12, hres, ?_⟩
  intro s1 n1 s2 n2 hr1 hr2
  rw [h12, hr2] at hr1
  simp only [Except.ok.injEq, Prod.mk.injEq] at hr1
  obtain ⟨hs, hn⟩ := hr1
  rw [hs, hn]
  exact ⟨fun i => rfl, fun i => rfl, rfl⟩

/-- Witness for C7 at the empty resolver state and the reference ceiling 10:
the relation admits exactly the computed outcome, one pass, at both runs. -/
theorem resolution_deterministic_witness :
    (Except.ok ((⟨[], []⟩ : ResolverState), 1) :
        Except ResolveError (ResolverState × Nat)) =
      Except.ok ((⟨[], []⟩ : ResolverState), 1) ∧
    (Except.ok ((⟨[], []⟩ : ResolverState), 1) :
        Except ResolveError (ResolverState × Nat)) =
      resolve_iteratively 10 ⟨[], []⟩ ∧
    (∀ s1 n1 s2 n2,
      (Except.ok ((⟨[], []⟩ : ResolverState), 1) :
          Except ResolveError (ResolverState × Nat)) = Except.ok (s1, n1) →
      (Except.ok ((⟨[], []⟩ : ResolverState), 1) :
          Except ResolveError (ResolverState × Nat)) = Except.ok (s2, n2) →
      (∀ i, sym_state_at s1 i = sym_state_at s2 i) ∧
      (∀ i, (s1.instrs.get? i).map Instr.resolution =
        (s2.instrs.get? i).map Instr.resolution) ∧
      n1 = n2) := by
  have lr : LoopRel ⟨[], []⟩ 10 0 (Except.ok (⟨[], []⟩, 1)) :=
    @LoopRel.fixpoint ⟨[], []⟩ 9 0 ⟨[], []⟩ rfl rfl
  exact resolution_deterministic ⟨[], []⟩ 10 _ _ lr lr

end Customasm
